import Mathlib

/-!
Shallow embedding of the schedule bot (src/schedule_bot.py, with the query-layer
variant in src/schedule_bot_backup.py) for checking the specification's claims.

The Python code operates on a BeautifulSoup document tree; the tree accessors
(find, find_all, get_text) belong to the external HTML library, so the embedding
takes the extracted tree data as input (the `Soup`, `Row`, `Cell`, `InnerTable`
and `ContentCell` structures below record exactly the fields the code reads) and
models the repository's own logic over them.  Python string operations used by
the code (strip, lower, `in`, replace, split) are modelled on `List Char`;
`lower`, `isalpha` and `isdigit` are Unicode-aware in Python and are modelled
here on the ASCII and Cyrillic ranges, the alphabets this program works with.
-/

namespace ScheduleBot

/-- Python str.strip(): drop leading and trailing whitespace. -/
def pyStrip (s : String) : String :=
  ⟨((s.data.dropWhile Char.isWhitespace).reverse.dropWhile Char.isWhitespace).reverse⟩

/-- Python str.lower(), restricted to ASCII letters and the Cyrillic block
А-Я (U+0410..U+042F, mapped to а-я) plus Ё (U+0401 to U+0451). -/
def pyToLower (c : Char) : Char :=
  if c.toNat == 0x401 then Char.ofNat 0x451
  else if 0x410 ≤ c.toNat && c.toNat ≤ 0x42F then Char.ofNat (c.toNat + 0x20)
  else c.toLower

def strLower (s : String) : String := ⟨s.data.map pyToLower⟩

/-- Python str.isalpha() per character, restricted to ASCII letters and the
Cyrillic letters а-я/А-Я/Ё/ё used in this timetable. -/
def pyIsAlpha (c : Char) : Bool :=
  c.isAlpha || (0x410 ≤ c.toNat && c.toNat ≤ 0x44F) || c.toNat == 0x401 || c.toNat == 0x451

/-- Python str.isdigit() per character (ASCII digits, which is what the group
names and pair numbers contain). -/
def pyIsDigit (c : Char) : Bool := c.isDigit

/-- Does the first list occur at the head of the second one? -/
def leadsWith : List Char → List Char → Bool
  | [], _ => true
  | _ :: _, [] => false
  | a :: as, b :: bs => a == b && leadsWith as bs

/-- Does the first list occur contiguously somewhere inside the second one? -/
def hasSub (n : List Char) : List Char → Bool
  | [] => n.isEmpty
  | c :: rest => leadsWith n (c :: rest) || hasSub n rest

/-- Python `needle in hay` on strings. -/
def strContains (hay needle : String) : Bool := hasSub needle.data hay.data

/-- Python "a\nb".split of a newline: split into lines, keeping empty pieces. -/
def splitNl : List Char → List (List Char)
  | [] => [[]]
  | c :: rest =>
    if c == '\n' then [] :: splitNl rest
    else
      match splitNl rest with
      | [] => [[c]]
      | l :: ls => (c :: l) :: ls

def pySplitLines (s : String) : List String := (splitNl s.data).map (fun l => ⟨l⟩)

/-- Delete every occurrence of `pat`, scanning left to right (Python
s.replace(pat, '') with a non-empty pattern; with an empty pattern the deletion
is a no-op, matching replace with an empty replacement).  The Nat argument
counts the characters still allowed to be consumed; every recursive call
consumes at least one character, so starting it at the list length makes the
middle branch unreachable and keeps the recursion structural (kernel-reducible). -/
def removeAll (pat : List Char) : Nat → List Char → List Char
  | _, [] => []
  | 0, s => s
  | fuel + 1, c :: rest =>
    if pat ≠ [] && leadsWith pat (c :: rest) then
      removeAll pat fuel (List.drop (pat.length - 1) rest)
    else
      c :: removeAll pat fuel rest

def pyReplaceDel (s pat : String) : String := ⟨removeAll pat.data s.data.length s.data⟩

/-- Lexicographic comparison of strings by code point (Python string order). -/
def charListLe : List Char → List Char → Bool
  | [], _ => true
  | _ :: _, [] => false
  | a :: as, b :: bs =>
    if a.toNat < b.toNat then true
    else if b.toNat < a.toNat then false
    else charListLe as bs

def strLe (a b : String) : Bool := charListLe a.data b.data

/-- Insertion step of a stable ascending sort (models Python sorted on strings). -/
def insertLe (x : String) : List String → List String
  | [] => [x]
  | y :: ys => if strLe x y then x :: y :: ys else y :: insertLe x ys

def pySorted (l : List String) : List String := l.foldr insertLe []

/-! ### Data model (spec section 3, from the dict shapes the code builds) -/

/-- One lesson entry, the dict
  \x7b'pair_number': ..., 'subject': ..., 'teacher': ...\x7d
built in get_schedule. -/
structure ClassEntry where
  pair_number : String
  subject : String
  teacher : String
deriving DecidableEq, Repr

/-- The schedule_by_group dict: an insertion-ordered mapping groupName to its
list of entries, modelled as an association list with unique keys maintained
by the update helpers below. -/
abbrev Groups := List (String × List ClassEntry)

def dmem (m : Groups) (k : String) : Bool := m.any (fun kv => kv.1 == k)

def dlookup (m : Groups) (k : String) : Option (List ClassEntry) :=
  (m.find? (fun kv => kv.1 == k)).map (·.2)

def dget (m : Groups) (k : String) : List ClassEntry := (dlookup m k).getD []

/-- Python dict assignment m[k] = v: replace in place when the key exists,
otherwise append at the end (insertion order). -/
def dset (m : Groups) (k : String) (v : List ClassEntry) : Groups :=
  if dmem m k then m.map (fun kv => if kv.1 == k then (k, v) else kv)
  else m ++ [(k, v)]

/-- Python m[k].append(e). -/
def dappend (m : Groups) (k : String) (e : ClassEntry) : Groups :=
  dset m k (dget m k ++ [e])

/-! ### The document tree as the code reads it

get_schedule reads from the soup exactly: the text of the first div whose style
holds 'width:980px'; the tr rows of the first table of class 'border'; per row
the stripped texts of its th cells and its direct-child td cells; per big cell
its nested tables; per nested table the stripped text of its first th and its
first td whose style holds 'overflow', and inside that cell the full text
(space-separated, stripped) plus the stripped text of the first small element. -/

structure ContentCell where
  text : String
  small : Option String
deriving DecidableEq, Repr

structure InnerTable where
  pairTh : Option String
  content : Option ContentCell
deriving DecidableEq, Repr

structure Cell where
  innerTables : List InnerTable
deriving DecidableEq, Repr

structure Row where
  ths : List String
  tds : List Cell
deriving DecidableEq, Repr

structure Soup where
  dateDiv : Option String
  table : Option (List Row)
deriving DecidableEq, Repr

/-- The parse result dict \x7b'date': ..., 'groups': ...\x7d. -/
structure ScheduleData where
  date : String
  groups : Groups
deriving DecidableEq, Repr

/-! ### Table parser (get_schedule, src/schedule_bot.py lines 371-510) -/

def months : List String := ["ноября", "декабря", "января", "февраля", "марта"]

def extractDate (dateDiv : Option String) : String :=
  match dateDiv with
  | none => "Дата не указана"
  | some txt =>
    match (pySplitLines txt).find? (fun line => months.any (fun m => strContains (strLower line) m)) with
    | some line => pyStrip line
    | none => "Дата не указана"

/-- The group-name heuristic on a stripped header-cell text: non-empty, length
in [3,15], at least one digit and at least one letter. -/
def qualifies (s : String) : Bool :=
  (s != "") && decide (3 ≤ s.length) && decide (s.length ≤ 15)
    && s.data.any pyIsDigit && s.data.any pyIsAlpha

/-- The subject of a lesson cell: the cell text with every occurrence of the
teacher substring deleted and then stripped when a teacher is recorded,
otherwise the cell text unchanged. -/
def entrySubject (cc : ContentCell) : String :=
  let teacher := cc.small.getD ""
  if teacher != "" then pyStrip (pyReplaceDel cc.text teacher) else cc.text

/-- Parse one nested lesson table into an entry; no content cell means no
entry, and a short no-class placeholder subject is dropped. -/
def parseInnerTable (it : InnerTable) : Option ClassEntry :=
  let pair_number := it.pairTh.getD "?"
  match it.content with
  | none => none
  | some cc =>
    let subject := entrySubject cc
    if strContains (strLower subject) "нет" && decide (subject.length < 15) then none
    else some ⟨pair_number, subject, cc.small.getD ""⟩

/-- Append every entry of one big cell's nested tables to group g, in document
order. -/
def processCell (m : Groups) (g : String) : List InnerTable → Groups
  | [] => m
  | it :: its =>
    match parseInnerTable it with
    | some e => processCell (dappend m g e) g its
    | none => processCell m g its

/-- Positional mapping: cell at column i feeds the block's group at index i;
the zip drops cells beyond the number of recognized groups (the break) and
groups beyond the number of cells (loop end). -/
def processContentRow (m : Groups) : List (String × Cell) → Groups
  | [] => m
  | gc :: rest => processContentRow (processCell m gc.1 gc.2.innerTables) rest

/-- Register each block group with an empty schedule when not seen yet. -/
def registerGroups (m : Groups) : List String → Groups
  | [] => m
  | g :: gs => registerGroups (if dmem m g then m else dset m g []) gs

/-- The row cursor loop of get_schedule.  (The write to the module-global
available_groups cache is a side effect no claim touches and is not modelled.) -/
def parseRows (m : Groups) : List Row → Groups
  | [] => m
  | row :: rest =>
    if row.ths.isEmpty then parseRows m rest
    else
      let gib := row.ths.filter qualifies
      if gib.isEmpty then parseRows m rest
      else
        let m1 := registerGroups m gib
        match rest with
        | [] => m1
        | contentRow :: rest2 =>
          parseRows (processContentRow m1 (gib.zip contentRow.tds)) rest2

/-- get_schedule: None models both the empty-response and missing-table early
returns and the absent-filter-group return; the fetch itself is the external
collaborator, so the response text and its parsed tree are inputs. -/
def get_schedule (responseText : String) (soup : Soup) (group_filter : Option String) :
    Option ScheduleData :=
  if pyStrip responseText == "" then none
  else
    match soup.table with
    | none => none
    | some rows =>
      let schedule_by_group := parseRows [] rows
      let result : ScheduleData := ⟨extractDate soup.dateDiv, schedule_by_group⟩
      match group_filter with
      | none => some result
      | some gf =>
        if gf != "" then
          match dlookup schedule_by_group gf with
          | some v => some ⟨result.date, [(gf, v)]⟩
          | none => none
        else some result

/-! ### Query layer (src/schedule_bot.py lines 296-348; the backup variant of
find_teacher_schedule is src/schedule_bot_backup.py lines 289-310) -/

/-- The schedule_data argument of the query functions: a Python value which may
be None (modelled by the outer Option) and, when a dict, may lack the 'groups'
key (modelled by the inner Option).  An empty dict is falsy in Python and takes
the same early return as None; both are covered by these two options. -/
structure PySchedule where
  date : String
  groups : Option Groups
deriving DecidableEq, Repr

/-- find_teacher_schedule of src/schedule_bot.py: an entry matches when its
teacher is non-empty and, lowercased, either equals the lowercased query or
contains it as a substring; groups whose match list is empty are not added. -/
def find_teacher_schedule (teacher_name : String) (schedule_data : Option PySchedule) : Groups :=
  match schedule_data with
  | none => []
  | some sd =>
    match sd.groups with
    | none => []
    | some groups =>
      let tl := strLower teacher_name
      groups.foldl (fun result gp =>
        let matching := gp.2.filter (fun p =>
          p.teacher != "" && (tl == strLower p.teacher || strContains (strLower p.teacher) tl))
        if matching.isEmpty then result else result ++ [(gp.1, matching)]) []

/-- find_teacher_schedule of src/schedule_bot_backup.py: same shape, but the
match condition is only the substring containment. -/
def find_teacher_schedule_backup (teacher_name : String) (schedule_data : Option PySchedule) : Groups :=
  match schedule_data with
  | none => []
  | some sd =>
    match sd.groups with
    | none => []
    | some groups =>
      let tl := strLower teacher_name
      groups.foldl (fun result gp =>
        let matching := gp.2.filter (fun p =>
          p.teacher != "" && strContains (strLower p.teacher) tl)
        if matching.isEmpty then result else result ++ [(gp.1, matching)]) []

/-- get_all_teachers collects the distinct non-empty teacher names into a
Python set, whose iteration order is arbitrary; the embedding realizes it as
the first-encounter order over the groups mapping, one admissible order. -/
def get_all_teachers (schedule_data : Option PySchedule) : List String :=
  match schedule_data with
  | none => []
  | some sd =>
    match sd.groups with
    | none => []
    | some groups =>
      groups.foldl (fun acc gp =>
        gp.2.foldl (fun acc p =>
          if p.teacher != "" && !(acc.contains p.teacher) then acc ++ [p.teacher] else acc) acc) []

/-- search_teachers: the exact-match list is returned as filtered (unsorted);
only the partial-match list is passed through sorted. -/
def search_teachers (query : String) (schedule_data : Option PySchedule) : List String :=
  let all_teachers := get_all_teachers schedule_data
  let ql := strLower query
  let exact_matches := all_teachers.filter (fun t => strLower t == ql)
  if !exact_matches.isEmpty then exact_matches
  else pySorted (all_teachers.filter (fun t => strContains (strLower t) ql))

/-- The matching condition of find_teacher_schedule, factored out so the
characterization theorem can name it: non-empty teacher whose lowercase form
equals the lowercase query or contains it as a substring (one direction). -/
def teacherMatch (name : String) (p : ClassEntry) : Bool :=
  p.teacher != "" &&
    (strLower name == strLower p.teacher || strContains (strLower p.teacher) (strLower name))

/-! ### Change-detection monitor (monitor_schedule, src/schedule_bot.py
lines 1122-1224, with get_all_subscribers at lines 218-223)

The loop body of one iteration is modelled as a function of the iteration's
inputs: the parse result, the held hash map, the subscription table rows, the
per-user tracked groups, and the outcome of each send.  sha256 over
str(group_schedule) is kept abstract as a hash-function parameter H.
Exceptions are modelled explicitly, because the per-subscriber except handler
prints the variable user_id, which is unbound when subscriber['user_id'] itself
raised; that NameError escapes to the iteration's outer except handler, which
skips the previous_hashes replacement. -/

def hlookup (m : List (String × String)) (k : String) : Option String :=
  (m.find? (fun kv => kv.1 == k)).map (·.2)

def computeHashes (H : List ClassEntry → String) (groups : Groups) : List (String × String) :=
  groups.map (fun gp => (gp.1, H gp.2))

/-- The per-group change test of lines 1142-1147: present with a different
hash, or absent while the prior map is non-empty. -/
def changedCond (H : List ClassEntry → String) (previous : List (String × String))
    (g : String) (gs : List ClassEntry) : Bool :=
  match hlookup previous g with
  | some ph => ph != H gs
  | none => !previous.isEmpty

def computeChanged (H : List ClassEntry → String) (previous : List (String × String))
    (groups : Groups) : List String :=
  groups.foldl (fun changed gp =>
    if changedCond H previous gp.1 gp.2 then changed ++ [gp.1] else changed) []

/-- A row produced by the subscriber query at runtime.  get_all_subscribers
returns row[0] per row, a bare integer id; the monitor body expects dict rows
with a 'user_id' key, so both runtime shapes are represented. -/
inductive SubscriberVal
  | intId (id : Nat)
  | dictRow (id : Nat)
deriving DecidableEq, Repr

/-- get_all_subscribers (lines 218-223): the SELECT yields tuples and the
function returns row[0], so every element handed to the monitor is a bare id. -/
def get_all_subscribers (db_rows : List Nat) : List SubscriberVal :=
  db_rows.map SubscriberVal.intId

/-- subscriber['user_id']: subscripting a bare int raises TypeError (none);
a dict row yields the id. -/
def subscriberUserId : SubscriberVal → Option Nat
  | SubscriberVal.intId _ => none
  | SubscriberVal.dictRow id => some id

/-- The per-user send loop over the user's changed groups: each send is
attempted in order until one raises; the list holds the attempted
(recipient, group) pairs and the flag tells whether a send raised. -/
def sendLoop (send : Nat → String → Bool) (uid : Nat) (sg : Groups) :
    List String → List (Nat × String) × Bool
  | [] => ([], false)
  | g :: rest =>
    if dmem sg g then
      if send uid g then
        let r := sendLoop send uid sg rest
        ((uid, g) :: r.1, r.2)
      else ([(uid, g)], true)
    else sendLoop send uid sg rest

/-- One subscriber's protected block (lines 1171-1206).  Returns the attempted
sends, the binding of the user_id variable after the block, and whether the
except handler itself raised (NameError from printing an unbound user_id). -/
def processSubscriber (send : Nat → String → Bool) (userGroups : Nat → List String)
    (sg : Groups) (changed : List String) (bound : Option Nat) (sub : SubscriberVal) :
    List (Nat × String) × Option Nat × Bool :=
  match subscriberUserId sub with
  | none => ([], bound, bound.isNone)
  | some uid =>
    let ucg := (userGroups uid).filter (fun g => changed.contains g)
    let r := sendLoop send uid sg ucg
    (r.1, some uid, false)

/-- The fold over subscribers; a fatal handler error stops the loop. -/
def dispatchLoop (send : Nat → String → Bool) (userGroups : Nat → List String)
    (sg : Groups) (changed : List String) :
    Option Nat → List SubscriberVal → List (Nat × String) × Bool
  | _, [] => ([], false)
  | bound, sub :: rest =>
    let r := processSubscriber send userGroups sg changed bound sub
    if r.2.2 then (r.1, true)
    else
      let r2 := dispatchLoop send userGroups sg changed r.2.1 rest
      (r.1 ++ r2.1, r2.2)

/-- The observable outcome of one monitor iteration: the held hash map after
the iteration, the attempted (recipient, group) sends, and whether the outer
except handler fired. -/
structure IterResult where
  hashes : List (String × String)
  sends : List (Nat × String)
  aborted : Bool
deriving DecidableEq, Repr

def monitor_iteration (H : List ClassEntry → String) (send : Nat → String → Bool)
    (userGroups : Nat → List String) (db_rows : List Nat)
    (previous_hashes : List (String × String)) (parsed : Option ScheduleData) : IterResult :=
  match parsed with
  | none => ⟨previous_hashes, [], false⟩
  | some sched =>
    let current := computeHashes H sched.groups
    let changed := computeChanged H previous_hashes sched.groups
    if changed.isEmpty then ⟨current, [], false⟩
    else
      let subs := get_all_subscribers db_rows
      let d := dispatchLoop send userGroups sched.groups changed none subs
      if d.2 then ⟨previous_hashes, d.1, true⟩
      else ⟨current, d.1, false⟩

/-! ## Helper lemmas -/

theorem parseRows_no_groups (rows : List Row) (m : Groups)
    (h : ∀ r ∈ rows, r.ths.filter qualifies = []) : parseRows m rows = m := by
  induction rows with
  | nil => rfl
  | cons row rest ih =>
    have hr := h row (List.mem_cons_self _ _)
    have ih2 := ih (fun r hr2 => h r (List.mem_cons_of_mem _ hr2))
    by_cases he : row.ths.isEmpty
    · simp [parseRows, he, ih2]
    · simp [parseRows, he, hr, ih2]

theorem computeChanged_go (H : List ClassEntry → String) (prev : List (String × String))
    (groups : Groups) (acc : List String) :
    groups.foldl (fun changed gp =>
        if changedCond H prev gp.1 gp.2 then changed ++ [gp.1] else changed) acc =
      acc ++ (groups.filter (fun gp => changedCond H prev gp.1 gp.2)).map (·.1) := by
  induction groups generalizing acc with
  | nil => simp
  | cons gp rest ih =>
    by_cases h : changedCond H prev gp.1 gp.2 = true
    · simp [h, ih]
    · simp [h, ih]

theorem changedCond_iff (H : List ClassEntry → String) (prev : List (String × String))
    (g : String) (gs : List ClassEntry) :
    changedCond H prev g gs = true ↔
      ((∃ ph, hlookup prev g = some ph ∧ ph ≠ H gs) ∨
       (hlookup prev g = none ∧ prev ≠ [])) := by
  unfold changedCond
  cases h : hlookup prev g with
  | none => simp [List.isEmpty_iff]
  | some ph => simp

theorem leadsWith_self (l : List Char) : leadsWith l l = true := by
  induction l with
  | nil => rfl
  | cons c r ih => simp [leadsWith, ih]

theorem strContains_self (s : String) : strContains s s = true := by
  unfold strContains
  rcases h : s.data with _ | ⟨c, r⟩
  · rfl
  · simp [hasSub, leadsWith_self]

theorem fts_fold_eq_filterMap (pred : ClassEntry → Bool) (groups : Groups) (acc : Groups) :
    groups.foldl (fun result gp =>
        if (gp.2.filter pred).isEmpty then result
        else result ++ [(gp.1, gp.2.filter pred)]) acc =
      acc ++ groups.filterMap (fun gp =>
        if (gp.2.filter pred).isEmpty then none
        else some (gp.1, gp.2.filter pred)) := by
  induction groups generalizing acc with
  | nil => simp
  | cons gp rest ih =>
    rw [List.foldl_cons, List.filterMap_cons]
    by_cases h : (gp.2.filter pred).isEmpty
    · rw [if_pos h, if_pos h, ih]
    · rw [if_neg h, if_neg h, ih, List.append_assoc, List.singleton_append]

theorem charListLe_total (a b : List Char) : charListLe a b = true ∨ charListLe b a = true := by
  induction a generalizing b with
  | nil => left; rfl
  | cons x xs ih =>
    cases b with
    | nil => right; rfl
    | cons y ys =>
      by_cases h1 : x.toNat < y.toNat
      · left; simp [charListLe, h1]
      · by_cases h2 : y.toNat < x.toNat
        · right; simp [charListLe, h2]
        · rcases ih ys with h | h
          · left; simp [charListLe, h1, h2, h]
          · right; simp [charListLe, h1, h2, h]

theorem head_insertLe (x : String) (l : List String) :
    (insertLe x l).head? = some x ∨ (insertLe x l).head? = l.head? := by
  cases l with
  | nil => left; rfl
  | cons y ys =>
    by_cases h : strLe x y = true
    · left; simp [insertLe, h]
    · right; simp [insertLe, h]

theorem chain_insertLe (x : String) (l : List String)
    (h : l.Chain' (fun a b => strLe a b = true)) :
    (insertLe x l).Chain' (fun a b => strLe a b = true) := by
  induction l with
  | nil => simp [insertLe]
  | cons y ys ih =>
    rw [List.chain'_cons'] at h
    by_cases hxy : strLe x y = true
    · rw [show insertLe x (y :: ys) = x :: y :: ys by simp [insertLe, hxy]]
      rw [List.chain'_cons']
      refine ⟨?_, List.chain'_cons'.mpr h⟩
      intro b hb
      simp only [List.head?_cons, Option.mem_def, Option.some.injEq] at hb
      rw [← hb]
      exact hxy
    · have hyx : strLe y x = true := by
        rcases charListLe_total x.data y.data with ht | ht
        · exact absurd ht hxy
        · exact ht
      rw [show insertLe x (y :: ys) = y :: insertLe x ys by simp [insertLe, hxy]]
      rw [List.chain'_cons']
      refine ⟨?_, ih h.2⟩
      intro b hb
      rcases head_insertLe x ys with hh | hh
      · rw [hh] at hb
        simp only [Option.mem_def, Option.some.injEq] at hb
        rw [← hb]
        exact hyx
      · rw [hh] at hb
        exact h.1 b hb

theorem mem_insertLe (x z : String) (l : List String) :
    z ∈ insertLe x l ↔ z = x ∨ z ∈ l := by
  induction l with
  | nil => simp [insertLe]
  | cons y ys ih =>
    by_cases h : strLe x y = true
    · simp only [insertLe, if_pos h, List.mem_cons]
    · simp only [insertLe, if_neg h, List.mem_cons, ih]
      tauto

theorem pySorted_cons (y : String) (ys : List String) :
    pySorted (y :: ys) = insertLe y (pySorted ys) := rfl

theorem mem_pySorted (z : String) (l : List String) : z ∈ pySorted l ↔ z ∈ l := by
  induction l with
  | nil => simp [pySorted]
  | cons y ys ih => rw [pySorted_cons, mem_insertLe, ih, List.mem_cons]

theorem pySorted_chain (l : List String) :
    (pySorted l).Chain' (fun a b => strLe a b = true) := by
  induction l with
  | nil => simp [pySorted]
  | cons y ys ih =>
    rw [pySorted_cons]
    exact chain_insertLe y (pySorted ys) ih

theorem dmem_iff_keys (m : Groups) (k : String) : dmem m k = true ↔ k ∈ m.map Prod.fst := by
  simp only [dmem, List.any_eq_true, List.mem_map, beq_iff_eq]

theorem dlookup_cons (kv : String × List ClassEntry) (rest : Groups) (g : String) :
    dlookup (kv :: rest) g = if kv.1 == g then some kv.2 else dlookup rest g := by
  by_cases h : (kv.1 == g) = true
  · rw [if_pos h]
    unfold dlookup
    rw [@List.find?_cons_of_pos _ (fun kv => kv.1 == g) kv rest h]
    rfl
  · rw [if_neg h]
    unfold dlookup
    rw [@List.find?_cons_of_neg _ (fun kv => kv.1 == g) kv rest h]

theorem dset_cons_eq (kv : String × List ClassEntry) (rest : Groups) (k : String)
    (v : List ClassEntry) (h : (kv.1 == k) = true) :
    dset (kv :: rest) k v =
      (k, v) :: rest.map (fun x => if x.1 == k then (k, v) else x) := by
  have hm : dmem (kv :: rest) k = true := by
    simp only [dmem, List.any_cons, h, Bool.true_or]
  unfold dset
  rw [if_pos hm, List.map_cons, if_pos h]

theorem dset_cons_ne (kv : String × List ClassEntry) (rest : Groups) (k : String)
    (v : List ClassEntry) (h : (kv.1 == k) = false) :
    dset (kv :: rest) k v = kv :: dset rest k v := by
  have h' : ¬ (kv.1 == k) = true := by simp [h]
  unfold dset dmem
  rw [List.any_cons, h, Bool.false_or]
  by_cases hm : (rest.any fun x => x.1 == k) = true
  · rw [if_pos hm, if_pos hm, List.map_cons, if_neg h']
  · rw [if_neg hm, if_neg hm, List.cons_append]

theorem dlookup_map_replace (m : Groups) (k : String) (v : List ClassEntry) (g : String)
    (hg : g ≠ k) :
    dlookup (m.map (fun kv => if kv.1 == k then (k, v) else kv)) g = dlookup m g := by
  induction m with
  | nil => rfl
  | cons kv rest ih =>
    rw [List.map_cons]
    by_cases hk : (kv.1 == k) = true
    · have hkv : kv.1 = k := by simpa using hk
      rw [if_pos hk, dlookup_cons, dlookup_cons, ih]
      have h1 : ¬ ((k, v).1 == g) = true := by
        simp only [beq_iff_eq]
        exact fun hc => hg hc.symm
      have h2 : ¬ (kv.1 == g) = true := by
        rw [hkv]
        simp only [beq_iff_eq]
        exact fun hc => hg hc.symm
      rw [if_neg h1, if_neg h2]
    · rw [if_neg hk, dlookup_cons, dlookup_cons, ih]

theorem dlookup_dset (m : Groups) (k : String) (v : List ClassEntry) (g : String) :
    dlookup (dset m k v) g = if g = k then some v else dlookup m g := by
  induction m with
  | nil =>
    show dlookup [(k, v)] g = if g = k then some v else dlookup [] g
    rw [dlookup_cons]
    by_cases h : g = k
    · rw [if_pos (show ((k, v).1 == g) = true by simp [h]), if_pos h]
    · have h1 : ¬ ((k, v).1 == g) = true := by
        simp only [beq_iff_eq]
        exact fun hc => h hc.symm
      rw [if_neg h1, if_neg h]
  | cons kv rest ih =>
    by_cases hk : (kv.1 == k) = true
    · have hkv : kv.1 = k := by simpa using hk
      rw [dset_cons_eq kv rest k v hk, dlookup_cons]
      by_cases hg : g = k
      · rw [if_pos (show ((k, v).1 == g) = true by simp [hg]), if_pos hg]
      · have h1 : ¬ ((k, v).1 == g) = true := by
          simp only [beq_iff_eq]
          exact fun hc => hg hc.symm
        have h2 : ¬ (kv.1 == g) = true := by
          rw [hkv]
          simp only [beq_iff_eq]
          exact fun hc => hg hc.symm
        rw [if_neg h1, if_neg hg, dlookup_map_replace rest k v g hg, dlookup_cons, if_neg h2]
    · have hk' : (kv.1 == k) = false := by simpa using hk
      rw [dset_cons_ne kv rest k v hk', dlookup_cons, dlookup_cons, ih]
      by_cases hg2 : (kv.1 == g) = true
      · have h1 : kv.1 = g := by simpa using hg2
        have h2 : ¬ g = k := by
          rw [← h1]
          simpa using hk
        rw [if_pos hg2, if_neg h2, if_pos hg2]
      · rw [if_neg hg2, if_neg hg2]

theorem dget_dset (m : Groups) (k : String) (v : List ClassEntry) (g : String) :
    dget (dset m k v) g = if g = k then v else dget m g := by
  unfold dget
  rw [dlookup_dset]
  by_cases h : g = k <;> simp [h]

theorem dget_dappend (m : Groups) (k : String) (e : ClassEntry) (g : String) :
    dget (dappend m k e) g = dget m g ++ (if g = k then [e] else []) := by
  unfold dappend
  rw [dget_dset]
  by_cases h : g = k
  · subst h; simp
  · simp [h]

theorem keys_dset (m : Groups) (k : String) (v : List ClassEntry) :
    (dset m k v).map Prod.fst =
      if dmem m k then m.map Prod.fst else m.map Prod.fst ++ [k] := by
  unfold dset
  by_cases h : dmem m k = true
  · rw [if_pos h, if_pos h, List.map_map]
    apply List.map_congr_left
    intro kv _
    by_cases hk : kv.1 = k
    · simp [Function.comp_apply, hk]
    · simp [Function.comp_apply, hk]
  · simp only [Bool.not_eq_true] at h
    simp [h]

theorem nodup_keys_dset (m : Groups) (k : String) (v : List ClassEntry)
    (h : (m.map Prod.fst).Nodup) : ((dset m k v).map Prod.fst).Nodup := by
  rw [keys_dset]
  by_cases hm : dmem m k = true
  · simp [hm, h]
  · simp only [Bool.not_eq_true] at hm
    simp only [hm, if_false, Bool.false_eq_true]
    rw [List.nodup_append]
    refine ⟨h, List.nodup_singleton _, ?_⟩
    intro a ha hb
    simp only [List.mem_singleton] at hb
    subst hb
    rw [← dmem_iff_keys] at ha
    rw [hm] at ha
    exact Bool.false_ne_true ha

theorem nodup_keys_dappend (m : Groups) (k : String) (e : ClassEntry)
    (h : (m.map Prod.fst).Nodup) : ((dappend m k e).map Prod.fst).Nodup :=
  nodup_keys_dset m k _ h

theorem dget_not_mem (m : Groups) (k : String) (h : dmem m k = false) : dget m k = [] := by
  have hf : m.find? (fun kv => kv.1 == k) = none := by
    rw [List.find?_eq_none]
    intro kv hkv hc
    have hm : dmem m k = true := by
      unfold dmem
      exact List.any_eq_true.mpr ⟨kv, hkv, hc⟩
    rw [h] at hm
    exact Bool.false_ne_true hm
  simp [dget, dlookup, hf]

theorem dget_processCell (g gg : String) (its : List InnerTable) (m : Groups) :
    ∃ t, dget (processCell m g its) gg = dget m gg ++ t := by
  induction its generalizing m with
  | nil => exact ⟨[], by simp [processCell]⟩
  | cons it rest ih =>
    cases hp : parseInnerTable it with
    | none =>
      simp only [processCell, hp]
      exact ih m
    | some e =>
      rcases ih (dappend m g e) with ⟨t, ht⟩
      refine ⟨(if gg = g then [e] else []) ++ t, ?_⟩
      simp only [processCell, hp]
      rw [ht, dget_dappend, List.append_assoc]

theorem nodup_keys_processCell (g : String) (its : List InnerTable) (m : Groups)
    (h : (m.map Prod.fst).Nodup) : ((processCell m g its).map Prod.fst).Nodup := by
  induction its generalizing m with
  | nil => exact h
  | cons it rest ih =>
    cases hp : parseInnerTable it with
    | none =>
      simp only [processCell, hp]
      exact ih m h
    | some e =>
      simp only [processCell, hp]
      exact ih _ (nodup_keys_dappend m g e h)

theorem dget_processContentRow (l : List (String × Cell)) (m : Groups) (gg : String) :
    ∃ t, dget (processContentRow m l) gg = dget m gg ++ t := by
  induction l generalizing m with
  | nil => exact ⟨[], by simp [processContentRow]⟩
  | cons gc rest ih =>
    rcases dget_processCell gc.1 gg gc.2.innerTables m with ⟨t1, h1⟩
    rcases ih (processCell m gc.1 gc.2.innerTables) with ⟨t2, h2⟩
    refine ⟨t1 ++ t2, ?_⟩
    simp only [processContentRow]
    rw [h2, h1, List.append_assoc]

theorem nodup_keys_processContentRow (l : List (String × Cell)) (m : Groups)
    (h : (m.map Prod.fst).Nodup) : ((processContentRow m l).map Prod.fst).Nodup := by
  induction l generalizing m with
  | nil => exact h
  | cons gc rest ih =>
    simp only [processContentRow]
    exact ih _ (nodup_keys_processCell gc.1 gc.2.innerTables m h)

theorem dget_registerGroups (gs : List String) (m : Groups) (g : String) :
    dget (registerGroups m gs) g = dget m g := by
  induction gs generalizing m with
  | nil => rfl
  | cons a as ih =>
    simp only [registerGroups]
    rw [ih]
    by_cases hm : dmem m a = true
    · rw [if_pos hm]
    · rw [if_neg hm, dget_dset]
      by_cases hg : g = a
      · rw [if_pos hg, hg]
        exact (dget_not_mem m a (by simpa using hm)).symm
      · rw [if_neg hg]

theorem nodup_keys_registerGroups (gs : List String) (m : Groups)
    (h : (m.map Prod.fst).Nodup) : ((registerGroups m gs).map Prod.fst).Nodup := by
  induction gs generalizing m with
  | nil => exact h
  | cons a as ih =>
    simp only [registerGroups]
    apply ih
    by_cases hm : dmem m a = true
    · rw [if_pos hm]
      exact h
    · rw [if_neg hm]
      exact nodup_keys_dset m a [] h

theorem parseRows_nodup_keys (m : Groups) (rows : List Row) :
    (m.map Prod.fst).Nodup → ((parseRows m rows).map Prod.fst).Nodup := by
  induction m, rows using parseRows.induct with
  | case1 m => exact fun h => h
  | case2 m row rest hths ih =>
    intro h
    rw [parseRows]
    simp only [hths, if_true]
    exact ih h
  | case3 m row rest hths gib hgib ih =>
    intro h
    have hgib' : (List.filter qualifies row.ths).isEmpty = true := hgib
    rw [parseRows]
    simp only [if_neg hths, hgib', if_true]
    exact ih h
  | case4 m row hths gib hgib =>
    intro h
    have hgib' : ¬ (List.filter qualifies row.ths).isEmpty = true := hgib
    rw [parseRows]
    simp only [if_neg hths, if_neg hgib']
    exact nodup_keys_registerGroups _ m h
  | case5 m row hths gib hgib m1 contentRow rest2 ih =>
    intro h
    have hgib' : ¬ (List.filter qualifies row.ths).isEmpty = true := hgib
    rw [parseRows]
    simp only [if_neg hths, if_neg hgib']
    exact ih (nodup_keys_processContentRow _ _ (nodup_keys_registerGroups _ m h))

theorem parseRows_dget (m : Groups) (rows : List Row) (g : String) :
    ∃ t, dget (parseRows m rows) g = dget m g ++ t := by
  induction m, rows using parseRows.induct with
  | case1 m => exact ⟨[], by simp [parseRows]⟩
  | case2 m row rest hths ih =>
    rw [parseRows]
    simp only [hths, if_true]
    exact ih
  | case3 m row rest hths gib hgib ih =>
    have hgib' : (List.filter qualifies row.ths).isEmpty = true := hgib
    rw [parseRows]
    simp only [if_neg hths, hgib', if_true]
    exact ih
  | case4 m row hths gib hgib =>
    have hgib' : ¬ (List.filter qualifies row.ths).isEmpty = true := hgib
    refine ⟨[], ?_⟩
    rw [parseRows]
    simp only [if_neg hths, if_neg hgib']
    rw [dget_registerGroups, List.append_nil]
  | case5 m row hths gib hgib m1 contentRow rest2 ih =>
    have hgib' : ¬ (List.filter qualifies row.ths).isEmpty = true := hgib
    rcases ih with ⟨t2, h2⟩
    rcases dget_processContentRow ((row.ths.filter qualifies).zip contentRow.tds)
      (registerGroups m (row.ths.filter qualifies)) g with ⟨t1, h1⟩
    refine ⟨t1 ++ t2, ?_⟩
    rw [parseRows]
    simp only [if_neg hths, if_neg hgib']
    rw [h2, h1, dget_registerGroups, List.append_assoc]

/-- Claim C7: get_schedule returns None (the Unavailable outcome) both when the
response text is empty or whitespace-only and when the parsed document has no
table of class border; neither case raises or yields an empty snapshot. -/
theorem claim_C7 (text : String) (soup : Soup) (gf : Option String)
    (h : pyStrip text = "" ∨ soup.table = none) :
    get_schedule text soup gf = none := by
  rcases h with h | h
  · simp [get_schedule, h]
  · by_cases hb : pyStrip text = ""
    · simp [get_schedule, hb]
    · simp [get_schedule, hb, h]

theorem claim_C7_witness :
    get_schedule " \n  " ⟨none, some []⟩ none = none ∧
    get_schedule "x" ⟨none, none⟩ (some "АБ-12") = none :=
  ⟨claim_C7 _ _ _ (Or.inl (by decide)), claim_C7 _ _ _ (Or.inr rfl)⟩

/-- Claim C10: find_teacher_schedule (both source variants) returns the empty
mapping for a None snapshot and for a snapshot dict without the groups key,
for every teacher name, without raising. -/
theorem claim_C10 (name : String) :
    find_teacher_schedule name none = [] ∧
    (∀ d, find_teacher_schedule name (some ⟨d, none⟩) = []) ∧
    find_teacher_schedule_backup name none = [] ∧
    (∀ d, find_teacher_schedule_backup name (some ⟨d, none⟩) = []) :=
  ⟨rfl, fun _ => rfl, rfl, fun _ => rfl⟩

theorem claim_C10_witness : find_teacher_schedule "Иванов" none = [] :=
  (claim_C10 "Иванов").1

/-- Claim C5: a lesson cell's entry is dropped from the group schedule exactly
when its computed subject (the cell text with the teacher substring removed and
stripped, when a teacher is recorded) contains the no-class token нет
case-insensitively and is shorter than 15 characters; otherwise the entry is
appended.  The last two conjuncts are the spec's own examples: the bare
placeholder нет is dropped, a long legitimate subject containing нет is kept. -/
theorem claim_C5 (pt : Option String) (cc : ContentCell) (g : String) (m : Groups) :
    parseInnerTable ⟨pt, some cc⟩ =
      (if strContains (strLower (entrySubject cc)) "нет" && decide ((entrySubject cc).length < 15)
       then none else some ⟨pt.getD "?", entrySubject cc, cc.small.getD ""⟩) ∧
    processCell m g [⟨pt, some cc⟩] =
      (if strContains (strLower (entrySubject cc)) "нет" && decide ((entrySubject cc).length < 15)
       then m else dappend m g ⟨pt.getD "?", entrySubject cc, cc.small.getD ""⟩) ∧
    parseInnerTable ⟨some "1", some ⟨"нет", none⟩⟩ = none ∧
    parseInnerTable ⟨some "1", some ⟨"Интернет-программирование", none⟩⟩ =
      some ⟨"1", "Интернет-программирование", ""⟩ := by
  refine ⟨rfl, ?_, by decide, by decide⟩
  by_cases h : strContains (strLower (entrySubject cc)) "нет" = true
      ∧ (entrySubject cc).length < 15
  · simp [processCell, parseInnerTable, h]
  · simp [processCell, parseInnerTable, h]

theorem claim_C5_witness :
    parseInnerTable ⟨some "1", some ⟨"нет", none⟩⟩ = none :=
  (claim_C5 (some "1") ⟨"нет", none⟩ "g" []).2.2.1

/-- Claim C6: with a non-blank response, a recognized table and a non-empty
group filter, get_schedule returns None when the filter group is absent from
the parsed groups (indistinguishable from an unpublished schedule) and a
snapshot holding exactly that group with the parsed date when present. -/
theorem claim_C6 (text : String) (dd : Option String) (rows : List Row) (gf : String)
    (h1 : pyStrip text ≠ "") (h3 : gf ≠ "") :
    (dlookup (parseRows [] rows) gf = none →
      get_schedule text ⟨dd, some rows⟩ (some gf) = none) ∧
    (∀ v, dlookup (parseRows [] rows) gf = some v →
      get_schedule text ⟨dd, some rows⟩ (some gf) = some ⟨extractDate dd, [(gf, v)]⟩) := by
  constructor
  · intro h
    simp [get_schedule, h1, h3, h]
  · intro v h
    simp [get_schedule, h1, h3, h]

theorem claim_C6_witness :
    get_schedule "x" ⟨none, some [⟨["АБ-12"], []⟩]⟩ (some "ХХ-99") = none ∧
    get_schedule "x" ⟨none, some [⟨["АБ-12"], []⟩]⟩ (some "АБ-12") =
      some ⟨"Дата не указана", [("АБ-12", [])]⟩ :=
  ⟨(claim_C6 "x" none [⟨["АБ-12"], []⟩] "ХХ-99" (by decide) (by decide)).1 (by decide),
   (claim_C6 "x" none [⟨["АБ-12"], []⟩] "АБ-12" (by decide) (by decide)).2 [] (by decide)⟩

/-- Claim C8: a non-blank response with a recognized table in which no row has
a header cell passing the group-name heuristic parses to a snapshot with an
empty groups mapping, not to None. -/
theorem claim_C8 (text : String) (dd : Option String) (rows : List Row)
    (h1 : pyStrip text ≠ "") (h2 : ∀ r ∈ rows, r.ths.filter qualifies = []) :
    get_schedule text ⟨dd, some rows⟩ none = some ⟨extractDate dd, []⟩ := by
  simp [get_schedule, h1, parseRows_no_groups rows [] h2]

theorem claim_C8_witness :
    get_schedule "x" ⟨none, some [⟨["№", "Пн"], []⟩, ⟨[], [⟨[]⟩]⟩]⟩ none =
      some ⟨"Дата не указана", []⟩ :=
  claim_C8 "x" none [⟨["№", "Пн"], []⟩, ⟨[], [⟨[]⟩]⟩] (by decide) (by decide)

/-- Claim C3: in the monitor's diff step a group of the new snapshot lands in
the changed set exactly when the prior hash map held it with a different hash,
or it is absent from the prior map while that map is non-empty; with an empty
prior map (the first successful iteration) the changed set is empty whatever
the snapshot, so the whole iteration attempts no delivery and just installs
the fresh hashes. -/
theorem claim_C3 (H : List ClassEntry → String) (send : Nat → String → Bool)
    (userGroups : Nat → List String) (db : List Nat) (prev : List (String × String))
    (groups : Groups) (sched : ScheduleData) (g : String) :
    computeChanged H [] groups = [] ∧
    (g ∈ computeChanged H prev groups ↔
      ∃ gs, (g, gs) ∈ groups ∧
        ((∃ ph, hlookup prev g = some ph ∧ ph ≠ H gs) ∨
         (hlookup prev g = none ∧ prev ≠ []))) ∧
    monitor_iteration H send userGroups db [] (some sched) =
      ⟨computeHashes H sched.groups, [], false⟩ := by
  have hempty : ∀ gs : Groups, computeChanged H [] gs = [] := by
    intro gs
    rw [computeChanged, computeChanged_go]
    have hc : ∀ gp : String × List ClassEntry, changedCond H [] gp.1 gp.2 = false := by
      intro gp
      simp [changedCond, hlookup]
    have hf : gs.filter (fun gp => changedCond H [] gp.1 gp.2) = [] := by
      rw [List.filter_eq_nil_iff]
      intro gp _
      simp [hc gp]
    simp [hf]
  refine ⟨hempty groups, ?_, ?_⟩
  · rw [computeChanged, computeChanged_go]
    simp only [List.nil_append, List.mem_map, List.mem_filter]
    constructor
    · rintro ⟨gp, ⟨hmem, hcond⟩, hfst⟩
      refine ⟨gp.2, ?_, ?_⟩
      · rw [← hfst, Prod.mk.eta]
        exact hmem
      · rw [← hfst]
        exact (changedCond_iff H prev gp.1 gp.2).mp hcond
    · rintro ⟨gs, hmem, hcond⟩
      exact ⟨(g, gs), ⟨hmem, (changedCond_iff H prev g gs).mpr hcond⟩, rfl⟩
  · simp [monitor_iteration, hempty sched.groups]

theorem claim_C3_witness :
    computeChanged (fun _ => "h") [] [("G1", []), ("G2", [])] = [] :=
  (claim_C3 (fun _ => "h") (fun _ _ => true) (fun _ => []) [] []
    [("G1", []), ("G2", [])] ⟨"d", []⟩ "G1").1

/-- Claim C1 (divergence): in any iteration with a non-empty changed set and
at least one subscription row, no delivery is attempted at all and the held
hash map is NOT replaced — get_all_subscribers returns bare ids, subscripting
one raises TypeError, and the per-subscriber except handler then raises
NameError on the unbound user_id, which escapes to the iteration's outer
handler before the previous_hashes assignment.  The final conjunct shows that
even with rows of the dict shape the body expects, a send failure for one
(recipient, group) pair skips that recipient's remaining groups (user 1 never
gets G2) while later recipients still proceed, because the try wraps the whole
per-subscriber loop. -/
theorem claim_C1 (H : List ClassEntry → String) (send : Nat → String → Bool)
    (userGroups : Nat → List String) (uid : Nat) (rest : List Nat)
    (prev : List (String × String)) (sched : ScheduleData)
    (h : computeChanged H prev sched.groups ≠ []) :
    monitor_iteration H send userGroups (uid :: rest) prev (some sched) =
      ⟨prev, [], true⟩ ∧
    dispatchLoop (fun u g => !(u == 1 && g == "G1")) (fun _ => ["G1", "G2"])
        [("G1", []), ("G2", [])] ["G1", "G2"] none
        [SubscriberVal.dictRow 1, SubscriberVal.dictRow 2] =
      ([(1, "G1"), (2, "G1"), (2, "G2")], false) := by
  have he : (computeChanged H prev sched.groups).isEmpty = false := by
    rcases hl : computeChanged H prev sched.groups with _ | ⟨a, l⟩
    · exact absurd hl h
    · rfl
  refine ⟨?_, by decide⟩
  simp [monitor_iteration, he, get_all_subscribers, dispatchLoop, processSubscriber,
    subscriberUserId]

theorem claim_C1_witness :
    computeChanged (fun _ => "h") [("G1", "old")] [("G1", [])] ≠ [] ∧
    monitor_iteration (fun _ => "h") (fun _ _ => true) (fun _ => ["G1"]) [42]
      [("G1", "old")] (some ⟨"d", [("G1", [])]⟩) = ⟨[("G1", "old")], [], true⟩ :=
  ⟨by decide,
   (claim_C1 (fun _ => "h") (fun _ _ => true) (fun _ => ["G1"]) 42 []
     [("G1", "old")] ⟨"d", [("G1", [])]⟩ (by decide)).1⟩

/-- Claim C2 counterexample: the teacher field ab is contained in the query
abc (lowercased), so under the claimed symmetric containment the group G1 with
its matching entry must be in the result; the code returns the empty mapping,
because it only tests query-inside-teacher. -/
theorem claim_C2_counterexample :
    strContains (strLower "abc") (strLower "ab") = true ∧
    find_teacher_schedule "abc" (some ⟨"d", some [("G1", [⟨"1", "s", "ab"⟩])]⟩) = [] := by
  decide

/-- Claim C2 (amended): find_teacher_schedule keeps, per group and in mapping
order, exactly the entries whose non-empty teacher, lowercased, equals the
lowercased query or contains it as a substring — one direction only — and
omits groups with no match; the backup variant, which tests only the
containment, computes the same mapping because equal strings contain each
other. -/
theorem claim_C2 (name d : String) (groups : Groups) :
    find_teacher_schedule name (some ⟨d, some groups⟩) =
      groups.filterMap (fun gp =>
        if (gp.2.filter (teacherMatch name)).isEmpty then none
        else some (gp.1, gp.2.filter (teacherMatch name))) ∧
    find_teacher_schedule_backup name (some ⟨d, some groups⟩) =
      find_teacher_schedule name (some ⟨d, some groups⟩) := by
  have hpred : ∀ p : ClassEntry,
      (p.teacher != "" && strContains (strLower p.teacher) (strLower name)) =
        teacherMatch name p := by
    intro p
    unfold teacherMatch
    by_cases he : strLower name == strLower p.teacher
    · have heq : strLower name = strLower p.teacher := by simpa using he
      simp [he, heq, strContains_self]
    · simp [he]
  have hmain : find_teacher_schedule name (some ⟨d, some groups⟩) =
      groups.foldl (fun result gp =>
        if (gp.2.filter (teacherMatch name)).isEmpty then result
        else result ++ [(gp.1, gp.2.filter (teacherMatch name))]) [] := rfl
  have hbackup : find_teacher_schedule_backup name (some ⟨d, some groups⟩) =
      groups.foldl (fun result gp =>
        if (gp.2.filter (fun p =>
            p.teacher != "" && strContains (strLower p.teacher) (strLower name))).isEmpty then result
        else result ++ [(gp.1, gp.2.filter (fun p =>
            p.teacher != "" && strContains (strLower p.teacher) (strLower name)))]) [] := rfl
  have hfeq : ∀ l : List ClassEntry,
      l.filter (fun p => p.teacher != "" && strContains (strLower p.teacher) (strLower name)) =
        l.filter (teacherMatch name) := by
    intro l
    apply List.filter_congr
    intro p _
    rw [hpred p]
  constructor
  · rw [hmain, fts_fold_eq_filterMap (teacherMatch name) groups []]
    rfl
  · rw [hmain, hbackup,
      fts_fold_eq_filterMap (teacherMatch name) groups [],
      fts_fold_eq_filterMap
        (fun p => p.teacher != "" && strContains (strLower p.teacher) (strLower name)) groups []]
    simp only [List.nil_append]
    congr 1
    funext gp
    rw [hfeq gp.2]

theorem claim_C2_witness :
    find_teacher_schedule "иванов"
        (some ⟨"d", some [("G1", [⟨"1", "s", "Иванов И.И."⟩]), ("G2", [⟨"2", "s", "Петров"⟩])]⟩) =
      ([("G1", [(⟨"1", "s", "Иванов И.И."⟩ : ClassEntry)]), ("G2", [⟨"2", "s", "Петров"⟩])].filterMap
        (fun gp =>
          if (gp.2.filter (teacherMatch "иванов")).isEmpty then none
          else some (gp.1, gp.2.filter (teacherMatch "иванов")))) ∧
    find_teacher_schedule_backup "иванов"
        (some ⟨"d", some [("G1", [⟨"1", "s", "Иванов И.И."⟩]), ("G2", [⟨"2", "s", "Петров"⟩])]⟩) =
      find_teacher_schedule "иванов"
        (some ⟨"d", some [("G1", [⟨"1", "s", "Иванов И.И."⟩]), ("G2", [⟨"2", "s", "Петров"⟩])]⟩) :=
  claim_C2 "иванов" "d" [("G1", [⟨"1", "s", "Иванов И.И."⟩]), ("G2", [⟨"2", "s", "Петров"⟩])]

/-- Claim C4 counterexample: a snapshot holding the distinct teachers b and B,
both exact case-insensitive matches for the query b, in the collection's
encounter order.  The claim demands the sorted list; the code returns the
filtered list unsorted, and sorting would give the other order (B sorts before
b by code point). -/
theorem claim_C4_counterexample :
    search_teachers "b" (some ⟨"d", some [("G", [⟨"1", "s", "b"⟩, ⟨"2", "s", "B"⟩])]⟩) =
      ["b", "B"] ∧
    pySorted ["b", "B"] = ["B", "b"] ∧ (["b", "B"] : List String) ≠ ["B", "b"] := by
  decide

/-- Claim C4 (amended): when some collected teacher matches the query exactly
(case-insensitively), search_teachers returns exactly the exact matches in the
teacher collection's iteration order — not sorted — and no partial matches;
otherwise it returns the partial matches sorted ascending (adjacent-wise
ordered under the code-point order, with exactly the members of the partial
filter). -/
theorem claim_C4 (query : String) (sd : Option PySchedule) :
    search_teachers query sd =
      (if ((get_all_teachers sd).filter (fun t => strLower t == strLower query)).isEmpty
       then pySorted ((get_all_teachers sd).filter
              (fun t => strContains (strLower t) (strLower query)))
       else (get_all_teachers sd).filter (fun t => strLower t == strLower query)) ∧
    ((pySorted ((get_all_teachers sd).filter
        (fun t => strContains (strLower t) (strLower query)))).Chain'
      (fun a b => strLe a b = true)) ∧
    (∀ t, t ∈ pySorted ((get_all_teachers sd).filter
        (fun t => strContains (strLower t) (strLower query))) ↔
      t ∈ (get_all_teachers sd).filter (fun t => strContains (strLower t) (strLower query))) := by
  refine ⟨?_, pySorted_chain _, fun t => mem_pySorted t _⟩
  unfold search_teachers
  by_cases h : ((get_all_teachers sd).filter (fun t => strLower t == strLower query)).isEmpty
  · simp [h]
  · simp [h]

theorem claim_C4_witness :
    (pySorted ((get_all_teachers none).filter
        (fun t => strContains (strLower t) (strLower "x")))).Chain'
      (fun a b => strLe a b = true) :=
  (claim_C4 "x" none).2.1

/-- Claim C9: when the same qualifying group name heads more than one block,
the parse keeps one key for it (the key list stays duplicate-free) and each
block only appends entries after whatever the group already holds: for every
group, the prior contents are a left factor of the final contents, so entries
parsed earlier are never overwritten or lost and later blocks' entries follow
them in document order. -/
theorem claim_C9 (rows : List Row) (m : Groups) :
    ((m.map Prod.fst).Nodup → ((parseRows m rows).map Prod.fst).Nodup) ∧
    (∀ g, ∃ t, dget (parseRows m rows) g = dget m g ++ t) :=
  ⟨parseRows_nodup_keys m rows, fun g => parseRows_dget m rows g⟩

theorem claim_C9_witness :
    ((parseRows []
        [⟨["АБ-12"], []⟩, ⟨["1"], [⟨[⟨some "1", some ⟨"Математика", none⟩⟩]⟩]⟩,
         ⟨["АБ-12"], []⟩, ⟨["2"], [⟨[⟨some "2", some ⟨"Физика", none⟩⟩]⟩]⟩]).map Prod.fst).Nodup ∧
    parseRows []
        [⟨["АБ-12"], []⟩, ⟨["1"], [⟨[⟨some "1", some ⟨"Математика", none⟩⟩]⟩]⟩,
         ⟨["АБ-12"], []⟩, ⟨["2"], [⟨[⟨some "2", some ⟨"Физика", none⟩⟩]⟩]⟩] =
      [("АБ-12", [⟨"1", "Математика", ""⟩, ⟨"2", "Физика", ""⟩])] :=
  ⟨(claim_C9
      [⟨["АБ-12"], []⟩, ⟨["1"], [⟨[⟨some "1", some ⟨"Математика", none⟩⟩]⟩]⟩,
       ⟨["АБ-12"], []⟩, ⟨["2"], [⟨[⟨some "2", some ⟨"Физика", none⟩⟩]⟩]⟩] []).1 (by decide),
   by decide⟩

end ScheduleBot
